import Mathlib

/-!
# Wheel Tracker — verification of the ingestion engine and API surface

The repository ships the React frontend, an Express proxy
(`frontend/server.js`) and deployment scripts; the FastAPI backend that
implements the wheel engine (normalizer, state machine, PnL calculator,
categorizer, analytics) is not part of the available sources.  The engine
is therefore modelled from the specification (each such definition carries
a doc comment starting with `Modelled from the spec:`), while the proxy and
the presentation shapes consumed by the frontend are embedded from the
JavaScript sources.

Money is represented exactly in integer cents (`ℤ`); option contracts use
the standard multiplier of 100, so a premium of $2.00 on one contract is
`20000` cents of cash flow.  Timestamps are abstract naturals.
-/

namespace WheelTracker

/-- Modelled from the spec (§3): instrument kind of an execution. -/
inductive InstrumentKind
  | STOCK
  | PUT
  | CALL
deriving DecidableEq, Repr

/-- Modelled from the spec (§3): side of an execution. -/
inductive Side
  | BUY
  | SELL
deriving DecidableEq, Repr

/-- Modelled from the spec (§3): canonical immutable execution record.
Prices, strikes and commissions are in integer cents; quantity is signed
(sales of options and of stock carry negative quantity, purchases positive),
and `commission ≤ 0` after normalization.  `assignment` is the assignment
marker of §4.2 rule 2. -/
structure Execution where
  execId : String
  timestamp : Nat
  symbol : String
  kind : InstrumentKind
  side : Side
  strike : Option Int
  expiry : Option Nat
  quantity : Int
  price : Int
  commission : Int
  assignment : Bool
deriving DecidableEq, Repr

/-- Modelled from the spec (§4.1): raw broker-specific execution record.
Fields that the broker may omit are `Option`s; `putCall` is the option
marker (`"P"`/`"C"`, absent for stock); `side` is the raw side string. -/
structure RawExecution where
  execId : String
  timestamp : Nat
  symbol : Option String
  putCall : Option String
  side : String
  strike : Option Int
  expiry : Option Nat
  quantity : Option Int
  price : Option Int
  commission : Int
  assignment : Bool
deriving DecidableEq, Repr

/-- Modelled from the spec (§4.1): classify the instrument kind from the
option/stock marker of the raw record. -/
def classifyKind (putCall : Option String) : Option InstrumentKind :=
  match putCall with
  | none => some .STOCK
  | some "P" => some .PUT
  | some "C" => some .CALL
  | some _ => none

/-- Modelled from the spec (§4.1): parse the raw side string. -/
def classifySide (side : String) : Option Side :=
  match side with
  | "BUY" => some .BUY
  | "SELL" => some .SELL
  | _ => none

/-- Modelled from the spec (§4.1): normalize a raw record into a canonical
`Execution`, or reject it (`none` = `MalformedExecution`) when symbol,
quantity or price is missing, or the kind/side markers cannot be
classified.  The commission sign is normalized to be `≤ 0`. -/
def normalizeExecution (r : RawExecution) : Option Execution :=
  match r.symbol, r.quantity, r.price, classifyKind r.putCall, classifySide r.side with
  | some sym, some qty, some pr, some kind, some side =>
      some { execId := r.execId
             timestamp := r.timestamp
             symbol := sym
             kind := kind
             side := side
             strike := r.strike
             expiry := r.expiry
             quantity := qty
             price := pr
             commission := -(r.commission.natAbs : Int)
             assignment := r.assignment }
  | _, _, _, _, _ => none

/-- Modelled from the spec (§4.1): batch deduplication on broker execution
id — an execution whose id was already seen (in state or earlier in the
batch) is silently dropped. -/
def dedupNew (seen : List String) : List Execution → List Execution
  | [] => []
  | e :: rest =>
      if e.execId ∈ seen then dedupNew seen rest
      else e :: dedupNew (e.execId :: seen) rest

/-- Modelled from the spec (§4.1): the set of known execution ids after a
batch has passed deduplication. -/
def seenAfter (seen : List String) : List Execution → List String
  | [] => seen
  | e :: rest =>
      if e.execId ∈ seen then seenAfter seen rest
      else seenAfter (e.execId :: seen) rest

/-- Modelled from the spec (§4.2 tie-break): an execution is an *opening*
execution when it increases exposure — a SELL of an option leg or a BUY of
stock; the other cases are *closing* executions. -/
def isOpeningExec (e : Execution) : Bool :=
  match e.kind, e.side with
  | .STOCK, .BUY => true
  | .STOCK, .SELL => false
  | _, .SELL => true
  | _, .BUY => false

/-- Modelled from the spec (§4.2 tie-break): processing key — primary order
is the timestamp, and at equal timestamps closes come before opens. -/
def sortKey (e : Execution) : Nat :=
  2 * e.timestamp + (if isOpeningExec e then 1 else 0)

/-- Ordering used to sort a batch before the state machine consumes it. -/
def execLe (a b : Execution) : Prop :=
  sortKey a ≤ sortKey b

instance : DecidableRel execLe :=
  fun a b => inferInstanceAs (Decidable (sortKey a ≤ sortKey b))

instance : IsTotal Execution execLe :=
  ⟨fun a b => Nat.le_total (sortKey a) (sortKey b)⟩

instance : IsTrans Execution execLe :=
  ⟨fun _ _ _ hab hbc => Nat.le_trans hab hbc⟩

/-- Modelled from the spec (§4.2 tie-break): sort a batch by timestamp,
with closes before opens at equal timestamps. -/
def sortBatch (l : List Execution) : List Execution :=
  List.insertionSort execLe l

/-- Modelled from the spec (§4.2): phase of a wheel cycle (`NONE` is the
absence of an open wheel, not a phase of an existing wheel). -/
inductive Phase
  | CSP
  | SHARES_HELD
  | COVERED_CALL
  | CLOSED
deriving DecidableEq, Repr, Inhabited

/-- Modelled from the spec (§3): close reason of a closed wheel. -/
inductive CloseReason
  | put_closed
  | full_cycle
deriving DecidableEq, Repr

/-- Modelled from the spec (§4.3): contract multiplier — option cash flows
are per 100 shares, stock per share. -/
def execMultiplier (e : Execution) : Int :=
  if e.kind = .STOCK then 1 else 100

/-- Modelled from the spec (§4.3): signed cash flow of an execution
excluding commission, in cents (`−1 × price × quantity × multiplier`):
positive for credits received (sales), negative for debits paid. -/
def cashFlow (e : Execution) : Int :=
  -(e.price * e.quantity * execMultiplier e)

/-- Modelled from the spec (§4.3): premium credit of an execution — the
cash flow of SELL executions of option legs, `0` otherwise. -/
def premiumOf (e : Execution) : Int :=
  if e.kind ≠ .STOCK ∧ e.side = .SELL then cashFlow e else 0

/-- Modelled from the spec (§3): a wheel cycle.  `premiumCollected`,
`commissionsPaid` and `netCash` are running totals maintained
incrementally as executions are assigned (all in cents);
`realizedPnl` is derived from them. -/
structure Wheel where
  symbol : String
  seq : Nat
  phase : Phase
  startDate : Nat
  endDate : Option Nat
  executions : List Execution
  premiumCollected : Int
  commissionsPaid : Int
  netCash : Int
  closeReason : Option CloseReason
deriving DecidableEq, Repr, Inhabited

/-- Modelled from the spec (§3): a wheel is open while its end date is
null. -/
def Wheel.isOpen (w : Wheel) : Bool :=
  w.endDate.isNone

/-- Modelled from the spec (§4.3): realized PnL of a wheel — net cash flow
of its executions plus the (nonpositive) commissions. -/
def Wheel.realizedPnl (w : Wheel) : Int :=
  w.netCash + w.commissionsPaid

/-- Modelled from the spec (§4.2 rule 5): net open quantity of a given
instrument kind inside a wheel (signed, e.g. `-1` for one open short
put). -/
def netQty (k : InstrumentKind) (l : List Execution) : Int :=
  ((l.filter (fun e => e.kind == k)).map (fun e => e.quantity)).sum

/-- Modelled from the spec (§3): closing a wheel records the end date and
the close reason. -/
def closeWheel (w : Wheel) (e : Execution) (r : CloseReason) : Wheel :=
  { w with phase := .CLOSED, endDate := some e.timestamp, closeReason := some r }

/-- Modelled from the spec (§4.2 rules 2–5): advance an open wheel by one
execution.  The execution is appended and the running totals updated; the
phase advances per the transition table: a PUT buy that fully offsets the
short put closes the wheel (`put_closed`) unless marked as assignment
(then `SHARES_HELD`); a stock fill in `CSP` is the assignment purchase; a
CALL sale from `SHARES_HELD` yields `COVERED_CALL`; buying back the call
returns to `SHARES_HELD`; a stock reduction to zero in `COVERED_CALL`
closes the wheel (`full_cycle`); partial offsets keep the phase. -/
def stepWheel (w : Wheel) (e : Execution) : Wheel :=
  let base : Wheel :=
    { w with
        executions := w.executions ++ [e]
        premiumCollected := w.premiumCollected + premiumOf e
        commissionsPaid := w.commissionsPaid + e.commission
        netCash := w.netCash + cashFlow e }
  match w.phase, e.kind, e.side with
  | .CSP, .PUT, .BUY =>
      if netQty .PUT w.executions + e.quantity = 0 then
        if e.assignment then { base with phase := .SHARES_HELD }
        else closeWheel base e .put_closed
      else base
  | .CSP, .STOCK, .BUY => { base with phase := .SHARES_HELD }
  | .SHARES_HELD, .CALL, .SELL => { base with phase := .COVERED_CALL }
  | .SHARES_HELD, .PUT, .BUY =>
      if netQty .PUT w.executions + e.quantity = 0 then
        closeWheel base e .put_closed
      else base
  | .COVERED_CALL, .CALL, .BUY =>
      if netQty .CALL w.executions + e.quantity = 0 then { base with phase := .SHARES_HELD }
      else base
  | .COVERED_CALL, .STOCK, .SELL =>
      if netQty .STOCK w.executions + e.quantity = 0 then
        closeWheel base e .full_cycle
      else base
  | _, _, _ => base

/-- Modelled from the spec (§4.4): suggested action attached to each
execution of a sync batch. -/
inductive WheelAction
  | startNewWheel
  | closeOpenWheel
  | continueWheel
  | needsReview
deriving DecidableEq, Repr

/-- Modelled from the spec (§3): sequence number for a newly created wheel
of a symbol — one past the largest sequence number already used for that
symbol. -/
def nextSeq (sym : String) (ws : List Wheel) : Nat :=
  (((ws.filter (fun w => w.symbol == sym)).map (fun w => w.seq)).foldr max 0) + 1

/-- Modelled from the spec (§4.2 rule 1): the wheel created by an opening
SELL PUT execution, in phase `CSP`. -/
def newWheel (ws : List Wheel) (e : Execution) : Wheel :=
  { symbol := e.symbol
    seq := nextSeq e.symbol ws
    phase := .CSP
    startDate := e.timestamp
    endDate := none
    executions := [e]
    premiumCollected := premiumOf e
    commissionsPaid := e.commission
    netCash := cashFlow e
    closeReason := none }

/-- Modelled from the spec (§4.2): feed one execution to the open wheel of
its symbol if one exists; `none` when the symbol has no open wheel. -/
def stepWheelList (e : Execution) : List Wheel → Option (List Wheel × WheelAction)
  | [] => none
  | w :: ws =>
      if w.symbol = e.symbol ∧ w.endDate = none then
        let w' := stepWheel w e
        some (w' :: ws, if w'.endDate = none then .continueWheel else .closeOpenWheel)
      else
        match stepWheelList e ws with
        | some (ws', a) => some (w :: ws', a)
        | none => none

/-- Modelled from the spec (§4.2 rules 1 and 6): process one execution
against the wheel set.  With no open wheel for the symbol, a SELL PUT
creates a wheel and anything else is `UnassignableExecution`
(`needsReview`, wheel set untouched). -/
def processWheels (ws : List Wheel) (e : Execution) : List Wheel × WheelAction :=
  match stepWheelList e ws with
  | some (ws', a) => (ws', a)
  | none =>
      if e.side = .SELL ∧ e.kind = .PUT then (ws ++ [newWheel ws e], .startNewWheel)
      else (ws, .needsReview)

/-- Modelled from the spec (§6): a categorized-trade report entry of a
sync response. -/
structure CategorizedTrade where
  date : Nat
  symbol : String
  action : String
  suggested_action : String
  details : String
deriving DecidableEq, Repr

/-- Modelled from the spec (§4.4): the human-facing suggested-action label
of a wheel action. -/
def suggestedLabel (a : WheelAction) : String :=
  match a with
  | .startNewWheel => "Start New Wheel"
  | .closeOpenWheel => "Close Open Wheel"
  | .continueWheel => "Continue Wheel"
  | .needsReview => "Needs Review"

/-- Modelled from the spec (§4.4): the report entry of one execution. -/
def mkTrade (e : Execution) (a : WheelAction) : CategorizedTrade :=
  { date := e.timestamp
    symbol := e.symbol
    action := suggestedLabel a
    suggested_action := suggestedLabel a
    details :=
      match a with
      | .needsReview => "UnassignableExecution: no open wheel and not an opening put sale"
      | _ => "" }

/-- Modelled from the spec (§4.2, §4.4): fold a sorted batch through the
state machine, collecting the categorized trades. -/
def processBatch (ws : List Wheel) : List Execution → List Wheel × List CategorizedTrade
  | [] => (ws, [])
  | e :: rest =>
      let p := processWheels ws e
      let q := processBatch p.1 rest
      (q.1, mkTrade e p.2 :: q.2)

/-- Modelled from the spec (§9): the per-account engine state — the wheel
set plus the set of already-ingested broker execution ids. -/
structure EngineState where
  wheels : List Wheel
  seenIds : List String
deriving DecidableEq, Repr

/-- Modelled from the spec: the empty engine state. -/
def initState : EngineState :=
  { wheels := [], seenIds := [] }

/-- Modelled from the spec (§4.1–§4.4): ingestion of a raw batch —
normalize (dropping malformed records), deduplicate against the known ids
and within the batch, sort with the tie-break rule, and fold through the
state machine.  Returns the new state, the categorized trades and the
count of malformed (skipped) records. -/
def ingest (s : EngineState) (raws : List RawExecution) :
    EngineState × List CategorizedTrade × Nat :=
  let normalized := raws.filterMap normalizeExecution
  let fresh := dedupNew s.seenIds normalized
  let p := processBatch s.wheels (sortBatch fresh)
  ({ wheels := p.1, seenIds := seenAfter s.seenIds normalized },
   p.2,
   raws.length - normalized.length)

/-- Modelled from the spec: the engine state after ingesting a raw
batch. -/
def ingestState (s : EngineState) (raws : List RawExecution) : EngineState :=
  (ingest s raws).1

/-- Modelled from the spec (§5, §7): reachable engine states — the empty
state and anything obtained from a reachable state by ingesting a batch. -/
inductive Reachable : EngineState → Prop
  | init : Reachable initState
  | step (s : EngineState) (raws : List RawExecution) :
      Reachable s → Reachable (ingestState s raws)

/-! ## Sync operation and its failure modes (§5, §7) -/

/-- Modelled from the spec (§7): the fatal sync errors. -/
inductive SyncError
  | UpstreamFetchFailure
  | ConcurrentSyncRejected
deriving DecidableEq, Repr

/-- Modelled from the spec (§6): the sync response exposed to the UI. -/
structure SyncResponse where
  status : String
  count : Nat
  categorized_trades : List CategorizedTrade
deriving DecidableEq, Repr

/-- Modelled from the spec (§5): per-account state — the engine state plus
the single-sync-in-flight guard. -/
structure Account where
  engine : EngineState
  syncInFlight : Bool
deriving DecidableEq, Repr

/-- Modelled from the spec (§7): the broker fetch under the caller's retry
policy — the sequence of attempt outcomes is consumed until one succeeds;
exhaustion yields `none`. -/
def fetchWithRetry (attempts : List (Option (List RawExecution))) :
    Option (List RawExecution) :=
  attempts.findSome? id

/-- Modelled from the spec (§5, §7): a sync request for an account.  A
request while a sync is already in flight is rejected
(`ConcurrentSyncRejected`); fetch exhaustion aborts the sync
(`UpstreamFetchFailure`); both leave the account untouched.  Otherwise the
fetched batch is ingested and the categorized trades reported. -/
def requestSync (a : Account) (attempts : List (Option (List RawExecution))) :
    Account × Except SyncError SyncResponse :=
  if a.syncInFlight then (a, .error .ConcurrentSyncRejected)
  else
    match fetchWithRetry attempts with
    | none => (a, .error .UpstreamFetchFailure)
    | some raws =>
        let p := ingest a.engine raws
        ({ a with engine := p.1 },
         .ok { status := "ok", count := p.2.1.length, categorized_trades := p.2.1 })

/-! ## Presentation layer

The money-field shapes are fixed by how the frontend consumes each query:
`WheelSummaryTable.jsx` and `TradeHistoryTable.jsx` read `.value`, `.raw`
and `.class` from the wheel-summary and history money fields, while
`AnalyticsPage` (src/unnamed/part_010) and `PnlPage.jsx` apply `fmt$`,
`toFixed` and sign comparisons directly to the analytics and pnl money
values, which are therefore bare numerics. -/

/-- Modelled from the spec (§6): the money object `value`/`raw`/`class`
(`class` is a Lean keyword, so the field is named `cls`). -/
structure MoneyObj where
  value : String
  raw : Int
  cls : String
deriving DecidableEq, Repr

/-- A money field as it appears in an exposed response: either the
`value`/`raw`/`class` object or a bare numeric. -/
inductive MoneyField
  | obj (m : MoneyObj)
  | num (v : Int)
deriving DecidableEq, Repr

/-- Whether a money field has the `value`/`raw`/`class` object shape. -/
def MoneyField.isObjShape : MoneyField → Bool
  | .obj _ => true
  | .num _ => false

/-- Group the digits of a reversed digit list in threes, inserting commas
(helper for the thousands grouping of `toLocaleString`). -/
def groupRev : List Char → List Char
  | a :: b :: c :: d :: rest => a :: b :: c :: ',' :: groupRev (d :: rest)
  | l => l

/-- Decimal digits of a natural number with thousands separators. -/
def groupThousands (n : Nat) : String :=
  String.mk ((groupRev (toString n).data.reverse).reverse)

/-- Two-digit rendering of a cent remainder. -/
def twoDigits (n : Nat) : String :=
  (if n < 10 then "0" else "") ++ toString n

/-- Dollar rendering of an amount in cents: sign, dollar sign, grouped
dollars, two-digit cents. -/
def centsToDollars (v : Int) : String :=
  (if v < 0 then "-" else "") ++ "$" ++
    groupThousands (v.natAbs / 100) ++ "." ++ twoDigits (v.natAbs % 100)

/-- Embeds `fmt$` from src/unnamed/part_010 (lines 20–22): em-dash for a
missing value, otherwise sign, dollar sign and the absolute amount with
two decimals. -/
def fmtUsd (v : Option Int) : String :=
  match v with
  | none => "—"
  | some x => centsToDollars x

/-- Modelled from the spec (§4.3): display hint derived purely from the
sign of the value. -/
def signClass (v : Int) : String :=
  if 0 < v then "positive" else if v < 0 then "negative" else "neutral"

/-- Modelled from the spec (§6): build the money object for a raw cent
amount. -/
def mkMoney (v : Int) : MoneyObj :=
  { value := centsToDollars v, raw := v, cls := signClass v }

/-- Embeds the tile class derivation from `AnalyticsPage`
(src/unnamed/part_010): green for a nonnegative value, red otherwise. -/
def pnlTileClass (v : Int) : String :=
  if 0 ≤ v then "c-green" else "c-red"

/-- Phase label used by the wheel-summary response. -/
def phaseLabel : Phase → String
  | .CSP => "CSP"
  | .SHARES_HELD => "SHARES_HELD"
  | .COVERED_CALL => "COVERED_CALL"
  | .CLOSED => "CLOSED"

/-- Modelled from the spec (§6): one row of the wheel-summary response,
with the field names consumed by `WheelSummaryTable` (src/unnamed/part_008
and part_009): `wheelNum`, `symbol`, `isOpen`, `phase`, and the money
objects `comm`, `premiumCollected`, `pnl`. -/
structure WheelSummaryRow where
  wheelNum : Nat
  symbol : String
  isOpen : Bool
  phase : String
  comm : MoneyObj
  premiumCollected : MoneyObj
  pnl : MoneyObj
deriving DecidableEq, Repr

/-- Modelled from the spec (§6): the wheel-summary row of a wheel; the
`wheelNum` exposed to the table is the wheel's per-symbol sequence
number. -/
def summaryRow (w : Wheel) : WheelSummaryRow :=
  { wheelNum := w.seq
    symbol := w.symbol
    isOpen := w.isOpen
    phase := phaseLabel w.phase
    comm := mkMoney w.commissionsPaid
    premiumCollected := mkMoney w.premiumCollected
    pnl := mkMoney w.realizedPnl }

/-- Modelled from the spec (§6): the wheel-summary response. -/
def wheelSummary (s : EngineState) : List WheelSummaryRow :=
  s.wheels.map summaryRow

/-- The money fields carried by one wheel-summary row. -/
def summaryMoneyFields (r : WheelSummaryRow) : List MoneyField :=
  [.obj r.comm, .obj r.premiumCollected, .obj r.pnl]

/-- Modelled from the spec (§4.5): the analytics overview money totals.
They are exposed as bare numerics: `AnalyticsPage` (src/unnamed/part_010)
applies `fmt$` and sign comparisons directly to them. -/
structure AnalyticsOverview where
  total_wheels : Nat
  total_realized_pnl : Int
  total_premiums : Int
  total_commissions : Int
deriving DecidableEq, Repr

/-- Modelled from the spec (§4.5): fold of the overview totals over the
wheel set. -/
def analyticsOverview (s : EngineState) : AnalyticsOverview :=
  { total_wheels := s.wheels.length
    total_realized_pnl :=
      ((s.wheels.filter (fun w => !w.isOpen)).map Wheel.realizedPnl).sum
    total_premiums := (s.wheels.map (fun w => w.premiumCollected)).sum
    total_commissions := (s.wheels.map (fun w => w.commissionsPaid)).sum }

/-- The money fields of the analytics overview as the frontend consumes
them: bare numerics. -/
def analyticsMoneyFields (o : AnalyticsOverview) : List MoneyField :=
  [.num o.total_realized_pnl, .num o.total_premiums, .num o.total_commissions]

/-- Modelled from the spec (§6): one row of the history response (the
flat execution list), with the field names consumed by
`TradeHistoryTable.jsx`: `date`, `symbol`, `details`, `qty`, `price`
plain, and the money object `comm` (the table reads `comm.raw` and
`comm.value`). -/
structure HistoryRow where
  date : Nat
  symbol : String
  details : String
  qty : Int
  price : Int
  comm : MoneyObj
deriving DecidableEq, Repr

/-- Modelled from the spec (§6): the history row of one execution. -/
def historyRow (e : Execution) : HistoryRow :=
  { date := e.timestamp
    symbol := e.symbol
    details := ""
    qty := e.quantity
    price := e.price
    comm := mkMoney e.commission }

/-- Modelled from the spec (§6): the history response — the flat list of
the ingested executions. -/
def history (s : EngineState) : List HistoryRow :=
  ((s.wheels.map (fun w => w.executions)).flatten).map historyRow

/-- The money fields carried by one history row. -/
def historyMoneyFields (r : HistoryRow) : List MoneyField :=
  [.obj r.comm]

/-! ## Frontend API proxy (src/frontend/server.js, lines 24–33) -/

/-- An incoming HTTP request to the Express server, as visible to the
`/api` middleware. -/
structure HttpRequest where
  path : String
  method : String
  headers : List (String × String)
  body : Option String
deriving DecidableEq, Repr

/-- The upstream request issued by the proxy. -/
structure UpstreamRequest where
  url : String
  method : String
  headers : List (String × String)
  body : Option String
deriving DecidableEq, Repr

/-- Embeds `API_BASE` from src/frontend/server.js (default value). -/
def API_BASE : String :=
  "http://localhost:8000"

/-- Embeds the upstream call of the `/api` middleware
(src/frontend/server.js line 27): `fetch(API_BASE + req.path)` — a bare
GET of the base plus the request path, forwarding no method, headers or
body. -/
def proxyUpstream (req : HttpRequest) : UpstreamRequest :=
  { url := API_BASE ++ req.path
    method := "GET"
    headers := []
    body := none }

/-- Body of a proxy response: the upstream JSON passed through, or the
error object built in the catch branch. -/
inductive ProxyBody
  | passthrough (data : String)
  | errorObj (message : String)
deriving DecidableEq, Repr

/-- An HTTP response from the proxy. -/
structure ProxyResponse where
  status : Nat
  body : ProxyBody
deriving DecidableEq, Repr

/-- Embeds the response mapping of the `/api` middleware
(src/frontend/server.js lines 26–32): on success the upstream JSON is
re-serialized with status 200; any failure is caught and mapped to status
500 with the error-message object. -/
def proxyRespond (upstream : Except String String) : ProxyResponse :=
  match upstream with
  | .ok data => { status := 200, body := .passthrough data }
  | .error msg => { status := 500, body := .errorObj msg }

/-! ## Verification definitions: invariants, recomputed PnL sums, and the
concrete scenario fixtures of spec §8 -/

/-- Sequence numbers of the wheels of one symbol, in state order. -/
def symSeqs (sym : String) (ws : List Wheel) : List Nat :=
  (ws.filter (fun w => w.symbol == sym)).map (fun w => w.seq)

/-- Number of open wheels of one symbol. -/
def openCount (sym : String) (ws : List Wheel) : Nat :=
  (ws.filter (fun w => w.symbol == sym && w.endDate.isNone)).length

/-- The §3 wheel invariant over a wheel list: per symbol, the sequence
numbers are strictly increasing along the list (so all wheels of a symbol
are ordered by sequence number) and at most one wheel is open. -/
def WheelsInvariant (ws : List Wheel) : Prop :=
  ∀ sym : String, (symSeqs sym ws).Pairwise (· < ·) ∧ openCount sym ws ≤ 1

/-- The §3 wheel invariant over an engine state. -/
def WheelInvariant (s : EngineState) : Prop :=
  WheelsInvariant s.wheels

/-- Premium collected recomputed from an execution list (§4.3: credits of
SELL executions of option legs). -/
def sumPremium (l : List Execution) : Int :=
  (l.map premiumOf).sum

/-- Commissions recomputed from an execution list (each `≤ 0`). -/
def sumCommission (l : List Execution) : Int :=
  (l.map (fun e => e.commission)).sum

/-- Net commission-free cash flow recomputed from an execution list. -/
def sumCashFlow (l : List Execution) : Int :=
  (l.map cashFlow).sum

/-- Net option premium of an execution list: credits received for selling
option legs minus debits paid buying them back. -/
def netPremium (l : List Execution) : Int :=
  ((l.filter (fun e => e.kind != .STOCK)).map cashFlow).sum

/-- Net stock-leg gain/loss of an execution list (sale proceeds minus
purchase cost). -/
def stockGain (l : List Execution) : Int :=
  ((l.filter (fun e => e.kind == .STOCK)).map cashFlow).sum

/-- Total commission cost of an execution list as a nonnegative amount. -/
def commissionCost (l : List Execution) : Int :=
  -(sumCommission l)

/-- Consistency of the incrementally maintained wheel money fields with a
recomputation from the wheel's execution list alone. -/
def FieldsConsistent (ws : List Wheel) : Prop :=
  ∀ w ∈ ws, w.premiumCollected = sumPremium w.executions ∧
    w.commissionsPaid = sumCommission w.executions ∧
    w.netCash = sumCashFlow w.executions

/-- Relation between a wheel list after and before one execution step:
each wheel is untouched or advanced by `stepWheel`. -/
def stepRel (e : Execution) (w' w : Wheel) : Prop :=
  w' = w ∨ w' = stepWheel w e

/-- Scenario A (§8): SELL 1 PUT AAPL strike 150 at $2.00, commission
−$0.65. -/
def rawSellPutA : RawExecution :=
  { execId := "E1", timestamp := 1, symbol := some "AAPL", putCall := some "P",
    side := "SELL", strike := some 15000, expiry := some 30, quantity := some (-1),
    price := some 200, commission := -65, assignment := false }

/-- Scenario B (§8): BUY 1 PUT AAPL strike 150 at $0.50, commission
−$0.65, two days later. -/
def rawBuyPutB : RawExecution :=
  { execId := "E2", timestamp := 3, symbol := some "AAPL", putCall := some "P",
    side := "BUY", strike := some 15000, expiry := some 30, quantity := some 1,
    price := some 50, commission := -65, assignment := false }

/-- A second symbol's opening put sale (for the wheel-number collision
counterexample). -/
def rawSellPutM : RawExecution :=
  { execId := "M1", timestamp := 1, symbol := some "MSFT", putCall := some "P",
    side := "SELL", strike := some 10000, expiry := some 30, quantity := some (-1),
    price := some 100, commission := -65, assignment := false }

/-- Scenario D (§8): a stock sale for a symbol with no open wheel — not an
opening put sale, hence unassignable. -/
def rawStockSellD : RawExecution :=
  { execId := "D1", timestamp := 9, symbol := some "AAPL", putCall := none,
    side := "SELL", strike := none, expiry := none, quantity := some (-100),
    price := some 15500, commission := -50, assignment := false }

/-- A same-day roll leg: BUY back the strike-150 put at timestamp 3 (a
closing execution). -/
def rawRollClose : RawExecution :=
  rawBuyPutB

/-- A same-day roll leg: SELL a new strike-145 put at the same timestamp 3
(an opening execution). -/
def rawRollOpen : RawExecution :=
  { execId := "R2", timestamp := 3, symbol := some "AAPL", putCall := some "P",
    side := "SELL", strike := some 14500, expiry := some 60, quantity := some (-1),
    price := some 180, commission := -65, assignment := false }

/-- The raw batch of scenarios A and B. -/
def scenarioAB : List RawExecution :=
  [rawSellPutA, rawBuyPutB]

/-- The engine state after ingesting scenarios A and B from scratch. -/
def scenarioBState : EngineState :=
  ingestState initState scenarioAB

/-- The single (closed) wheel of the scenario-B state. -/
def scenarioBWheel : Wheel :=
  scenarioBState.wheels.headI

/-- The canonical execution of Scenario A (the normalization of
`rawSellPutA`). -/
def execSellPutA : Execution :=
  { execId := "E1", timestamp := 1, symbol := "AAPL", kind := .PUT,
    side := .SELL, strike := some 15000, expiry := some 30, quantity := -1,
    price := 200, commission := -65, assignment := false }

/-- The canonical execution of Scenario D (stock sale with no open
wheel — unassignable). -/
def execStockSellD : Execution :=
  { execId := "D1", timestamp := 9, symbol := "AAPL", kind := .STOCK,
    side := .SELL, strike := none, expiry := none, quantity := -100,
    price := 15500, commission := -50, assignment := false }

/-! ## Helper lemmas about one state-machine step -/

theorem stepWheel_spec (w : Wheel) (e : Execution) :
    (stepWheel w e).symbol = w.symbol ∧
    (stepWheel w e).seq = w.seq ∧
    (stepWheel w e).executions = w.executions ++ [e] ∧
    (stepWheel w e).premiumCollected = w.premiumCollected + premiumOf e ∧
    (stepWheel w e).commissionsPaid = w.commissionsPaid + e.commission ∧
    (stepWheel w e).netCash = w.netCash + cashFlow e ∧
    ((stepWheel w e).endDate = none → w.endDate = none) := by
  rcases hp : w.phase <;> rcases hk : e.kind <;> rcases hs : e.side <;>
    simp only [stepWheel, hp, hk, hs] <;>
    (try split) <;> (try split) <;> simp [closeWheel]

theorem forall₂_stepRel_refl (e : Execution) (ws : List Wheel) :
    List.Forall₂ (stepRel e) ws ws := by
  induction ws with
  | nil => exact .nil
  | cons w rest ih => exact .cons (Or.inl rfl) ih

theorem stepWheelList_forall₂ (e : Execution) :
    ∀ (ws ws' : List Wheel) (a : WheelAction),
      stepWheelList e ws = some (ws', a) → List.Forall₂ (stepRel e) ws' ws := by
  intro ws
  induction ws with
  | nil => intro ws' a h; simp [stepWheelList] at h
  | cons w rest ih =>
      intro ws' a h
      by_cases hc : w.symbol = e.symbol ∧ w.endDate = none
      · simp only [stepWheelList, if_pos hc] at h
        obtain ⟨h1, _⟩ := Prod.mk.injEq .. ▸ (Option.some.injEq .. ▸ h)
        exact h1 ▸ .cons (Or.inr rfl) (forall₂_stepRel_refl e rest)
      · simp only [stepWheelList, if_neg hc] at h
        rcases hrec : stepWheelList e rest with _ | p
        · rw [hrec] at h; exact absurd h (by simp)
        · rw [hrec] at h
          rcases p with ⟨ws₀, a₀⟩
          simp only [Option.some.injEq, Prod.mk.injEq] at h
          obtain ⟨h1, h2⟩ := h
          exact h1 ▸ .cons (Or.inl rfl) (ih ws₀ a₀ (by rw [hrec, h2]))

theorem stepWheelList_none (e : Execution) :
    ∀ ws : List Wheel, stepWheelList e ws = none →
      ∀ w ∈ ws, ¬(w.symbol = e.symbol ∧ w.endDate = none) := by
  intro ws
  induction ws with
  | nil => intro _ w hw; simp at hw
  | cons w rest ih =>
      intro h v hv
      by_cases hc : w.symbol = e.symbol ∧ w.endDate = none
      · simp [stepWheelList, if_pos hc] at h
      · simp only [stepWheelList, if_neg hc] at h
        rcases List.mem_cons.mp hv with hv | hv
        · exact hv ▸ hc
        · rcases hrec : stepWheelList e rest with _ | p
          · exact ih hrec v hv
          · rw [hrec] at h; exact absurd h (by simp)

theorem stepRel_symbol_seq (e : Execution) (w' w : Wheel) (h : stepRel e w' w) :
    w'.symbol = w.symbol ∧ w'.seq = w.seq ∧ (w'.endDate = none → w.endDate = none) := by
  rcases h with h | h
  · subst h; exact ⟨rfl, rfl, fun hx => hx⟩
  · subst h
    obtain ⟨h1, h2, _, _, _, _, h7⟩ := stepWheel_spec w e
    exact ⟨h1, h2, h7⟩

/-! ## Helper lemmas about the per-symbol invariant -/

theorem symSeqs_cons (sym : String) (w : Wheel) (ws : List Wheel) :
    symSeqs sym (w :: ws) =
      if w.symbol == sym then w.seq :: symSeqs sym ws else symSeqs sym ws := by
  simp only [symSeqs, List.filter_cons]
  split <;> simp

theorem symSeqs_append (sym : String) (l₁ l₂ : List Wheel) :
    symSeqs sym (l₁ ++ l₂) = symSeqs sym l₁ ++ symSeqs sym l₂ := by
  simp [symSeqs, List.filter_append]

theorem openCount_cons (sym : String) (w : Wheel) (ws : List Wheel) :
    openCount sym (w :: ws) =
      (if w.symbol == sym && w.endDate.isNone then 1 else 0) + openCount sym ws := by
  simp only [openCount, List.filter_cons]
  split <;> simp [Nat.add_comm]

theorem openCount_append (sym : String) (l₁ l₂ : List Wheel) :
    openCount sym (l₁ ++ l₂) = openCount sym l₁ + openCount sym l₂ := by
  simp [openCount, List.filter_append]

theorem forall₂_symSeqs (e : Execution) :
    ∀ {ws' ws : List Wheel}, List.Forall₂ (stepRel e) ws' ws →
      ∀ sym, symSeqs sym ws' = symSeqs sym ws := by
  intro ws' ws h
  induction h with
  | nil => intro _; rfl
  | @cons a b as bs hr _ ih =>
      intro sym
      obtain ⟨h1, h2, _⟩ := stepRel_symbol_seq e a b hr
      rw [symSeqs_cons, symSeqs_cons, h1, h2, ih sym]

theorem forall₂_openCount (e : Execution) :
    ∀ {ws' ws : List Wheel}, List.Forall₂ (stepRel e) ws' ws →
      ∀ sym, openCount sym ws' ≤ openCount sym ws := by
  intro ws' ws h
  induction h with
  | nil => intro _; exact Nat.le_refl _
  | @cons a b as bs hr _ ih =>
      intro sym
      obtain ⟨h1, _, h3⟩ := stepRel_symbol_seq e a b hr
      rw [openCount_cons, openCount_cons]
      have hind : (if a.symbol == sym && a.endDate.isNone then 1 else 0) ≤
          (if b.symbol == sym && b.endDate.isNone then 1 else 0) := by
        by_cases ha : a.symbol == sym && a.endDate.isNone
        · have hb : b.symbol == sym && b.endDate.isNone := by
            rcases Bool.and_eq_true .. ▸ ha with ⟨ha1, ha2⟩
            have hb1 : b.symbol == sym := by rw [← h1]; exact ha1
            have hb2 : b.endDate = none := h3 (Option.isNone_iff_eq_none.mp ha2)
            simp [hb1, hb2]
          simp [ha, hb]
        · simp only [if_neg ha]
          exact Nat.zero_le _
      exact Nat.add_le_add hind (ih sym)

theorem mem_le_foldr_max (x : Nat) :
    ∀ l : List Nat, x ∈ l → x ≤ l.foldr max 0 := by
  intro l
  induction l with
  | nil => intro h; simp at h
  | cons y t ih =>
      intro h
      rcases List.mem_cons.mp h with h | h
      · subst h; exact Nat.le_max_left _ _
      · exact Nat.le_trans (ih h) (Nat.le_max_right _ _)

theorem lt_nextSeq (sym : String) (ws : List Wheel) (x : Nat)
    (hx : x ∈ symSeqs sym ws) : x < nextSeq sym ws :=
  Nat.lt_succ_of_le (mem_le_foldr_max x (symSeqs sym ws) hx)

theorem openCount_eq_zero (sym : String) (ws : List Wheel)
    (h : ∀ w ∈ ws, ¬(w.symbol = sym ∧ w.endDate = none)) :
    openCount sym ws = 0 := by
  unfold openCount
  rw [List.length_eq_zero, List.filter_eq_nil_iff]
  intro w hw
  intro hpred
  rcases Bool.and_eq_true .. ▸ hpred with ⟨h1, h2⟩
  exact h w hw ⟨by simpa using h1, Option.isNone_iff_eq_none.mp h2⟩

theorem processWheels_invariant (ws : List Wheel) (e : Execution)
    (h : WheelsInvariant ws) : WheelsInvariant (processWheels ws e).1 := by
  unfold processWheels
  rcases hsl : stepWheelList e ws with _ | p
  · by_cases hps : e.side = .SELL ∧ e.kind = .PUT
    · simp only [if_pos hps]
      intro sym
      have hnone := stepWheelList_none e ws hsl
      constructor
      · rw [symSeqs_append, symSeqs_cons]
        show ((symSeqs sym ws) ++
          (if (newWheel ws e).symbol == sym then [(newWheel ws e).seq] else [])).Pairwise (· < ·)
        by_cases hsym : (newWheel ws e).symbol == sym
        · rw [if_pos hsym]
          rw [List.pairwise_append]
          refine ⟨(h sym).1, List.pairwise_singleton _ _, ?_⟩
          intro x hx y hy
          rcases List.mem_singleton.mp hy with rfl
          have hsym2 : e.symbol = sym := by simpa [newWheel] using hsym
          subst hsym2
          exact lt_nextSeq e.symbol ws x hx
        · rw [if_neg hsym, List.append_nil]
          exact (h sym).1
      · rw [openCount_append, openCount_cons]
        by_cases hsym : (newWheel ws e).symbol == sym
        · have hsym2 : e.symbol = sym := by simpa [newWheel] using hsym
          subst hsym2
          have h0 : openCount e.symbol ws = 0 :=
            openCount_eq_zero e.symbol ws (fun w hw => hnone w hw)
          have hopen : (newWheel ws e).endDate.isNone = true := by simp [newWheel]
          rw [h0]
          simp [hsym, hopen, openCount]
        · rw [if_neg (by simp [hsym])]
          simpa [openCount] using (h sym).2
    · simp only [if_neg hps]
      exact h
  · rcases p with ⟨ws', a⟩
    have hf := stepWheelList_forall₂ e ws ws' a hsl
    intro sym
    exact ⟨forall₂_symSeqs e hf sym ▸ (h sym).1,
      Nat.le_trans (forall₂_openCount e hf sym) (h sym).2⟩

theorem processBatch_invariant :
    ∀ (l : List Execution) (ws : List Wheel),
      WheelsInvariant ws → WheelsInvariant (processBatch ws l).1 := by
  intro l
  induction l with
  | nil => intro ws h; exact h
  | cons e rest ih =>
      intro ws h
      simp only [processBatch]
      exact ih _ (processWheels_invariant ws e h)

theorem reachable_invariant (s : EngineState) (h : Reachable s) :
    WheelInvariant s := by
  induction h with
  | init =>
      intro sym
      exact ⟨by simp [symSeqs, initState], by simp [openCount, initState]⟩
  | step s raws _ ih =>
      exact processBatch_invariant _ _ ih

/-- C1: for every symbol and at every reachable state of the engine, at
most one wheel for that symbol is open (end date null); every other wheel
for that symbol is closed and the wheels of a symbol are ordered by their
sequence numbers; and the invariant is preserved by every state-machine
step (the only operation that creates, mutates or closes wheels). -/
theorem C1_at_most_one_open_wheel :
    (∀ s : EngineState, Reachable s → WheelInvariant s) ∧
    (∀ (ws : List Wheel) (e : Execution),
      WheelsInvariant ws → WheelsInvariant (processWheels ws e).1) :=
  ⟨reachable_invariant, processWheels_invariant⟩

/-- Witness for C1 at the concrete scenario-A/B state. -/
theorem C1_at_most_one_open_wheel_witness :
    WheelInvariant (ingestState initState scenarioAB) :=
  C1_at_most_one_open_wheel.1 _ (Reachable.step initState scenarioAB Reachable.init)

/-! ## Helper lemmas: incremental money fields match the recomputation -/

theorem stepRel_fields (e : Execution) (w' w : Wheel) (h : stepRel e w' w)
    (hw : w.premiumCollected = sumPremium w.executions ∧
      w.commissionsPaid = sumCommission w.executions ∧
      w.netCash = sumCashFlow w.executions) :
    w'.premiumCollected = sumPremium w'.executions ∧
    w'.commissionsPaid = sumCommission w'.executions ∧
    w'.netCash = sumCashFlow w'.executions := by
  rcases h with h | h
  · subst h; exact hw
  · subst h
    obtain ⟨_, _, h3, h4, h5, h6, _⟩ := stepWheel_spec w e
    obtain ⟨hw1, hw2, hw3⟩ := hw
    refine ⟨?_, ?_, ?_⟩
    · rw [h4, h3, hw1]; simp [sumPremium]
    · rw [h5, h3, hw2]; simp [sumCommission]
    · rw [h6, h3, hw3]; simp [sumCashFlow]

theorem forall₂_fields (e : Execution) :
    ∀ {ws' ws : List Wheel}, List.Forall₂ (stepRel e) ws' ws →
      FieldsConsistent ws → FieldsConsistent ws' := by
  intro ws' ws h
  induction h with
  | nil => intro _ w hw; simp at hw
  | @cons a b as bs hr _ ih =>
      intro hc w hw
      rcases List.mem_cons.mp hw with hw | hw
      · subst hw
        exact stepRel_fields e w b hr (hc b (List.mem_cons_self b bs))
      · exact ih (fun v hv => hc v (List.mem_cons_of_mem b hv)) w hw

theorem processWheels_fields (ws : List Wheel) (e : Execution)
    (h : FieldsConsistent ws) : FieldsConsistent (processWheels ws e).1 := by
  unfold processWheels
  rcases hsl : stepWheelList e ws with _ | p
  · by_cases hps : e.side = .SELL ∧ e.kind = .PUT
    · simp only [if_pos hps]
      intro w hw
      rcases List.mem_append.mp hw with hw | hw
      · exact h w hw
      · rcases List.mem_singleton.mp hw with rfl
        refine ⟨?_, ?_, ?_⟩ <;> simp [newWheel, sumPremium, sumCommission, sumCashFlow]
    · simp only [if_neg hps]
      exact h
  · rcases p with ⟨ws', a⟩
    exact forall₂_fields e (stepWheelList_forall₂ e ws ws' a hsl) h

theorem processBatch_fields :
    ∀ (l : List Execution) (ws : List Wheel),
      FieldsConsistent ws → FieldsConsistent (processBatch ws l).1 := by
  intro l
  induction l with
  | nil => intro ws h; exact h
  | cons e rest ih =>
      intro ws h
      simp only [processBatch]
      exact ih _ (processWheels_fields ws e h)

theorem reachable_fields (s : EngineState) (h : Reachable s) :
    FieldsConsistent s.wheels := by
  induction h with
  | init => intro w hw; simp [initState] at hw
  | step s raws _ ih => exact processBatch_fields _ _ ih

theorem sumCashFlow_split (l : List Execution) :
    sumCashFlow l = netPremium l + stockGain l := by
  induction l with
  | nil => simp [sumCashFlow, netPremium, stockGain]
  | cons e t ih =>
      by_cases hk : e.kind = .STOCK <;>
        simp [sumCashFlow, netPremium, stockGain, List.filter_cons, hk] at * <;>
        omega

/-- C3 counterexample: on the concrete Scenario-B wheel the claimed
identity fails when read with the §4.3 premium-collected figure (credits
of SELL executions only, the value stored and displayed for the wheel):
premium collected − commissions + stock gain is $198.70 while the realized
PnL demanded by Scenario B itself is $148.70, because the $50.00 paid to
buy the put back is not part of premium collected. -/
theorem C3_sells_only_identity_fails_on_scenarioB :
    scenarioBWheel.premiumCollected - commissionCost scenarioBWheel.executions +
        stockGain scenarioBWheel.executions ≠ scenarioBWheel.realizedPnl ∧
    scenarioBWheel.premiumCollected = sumPremium scenarioBWheel.executions ∧
    scenarioBWheel.premiumCollected - commissionCost scenarioBWheel.executions +
        stockGain scenarioBWheel.executions = 19870 ∧
    scenarioBWheel.realizedPnl = 14870 := by
  decide

/-- C3 (amended): for every closed wheel of a reachable state, realized
PnL = net option premium (credits of option sales minus debits of option
buy-backs) − commissions + net stock-leg gain/loss, computed exactly in
cents from the wheel's execution list alone; and for Scenario B the wheel
closes with reason `put_closed` and realized PnL exactly $148.70 (14870
cents). -/
theorem C3_realized_pnl_identity :
    (∀ s : EngineState, Reachable s → ∀ w ∈ s.wheels, w.endDate ≠ none →
      w.realizedPnl = netPremium w.executions - commissionCost w.executions +
        stockGain w.executions) ∧
    scenarioBState.wheels.length = 1 ∧
    scenarioBWheel.closeReason = some .put_closed ∧
    scenarioBWheel.realizedPnl = 14870 := by
  refine ⟨?_, by decide, by decide, by decide⟩
  intro s hs w hw _
  obtain ⟨h1, h2, h3⟩ := reachable_fields s hs w hw
  unfold Wheel.realizedPnl commissionCost
  rw [h2, h3, sumCashFlow_split]
  omega

/-- Witness for C3 at the concrete Scenario-B wheel. -/
theorem C3_realized_pnl_identity_witness :
    scenarioBWheel.realizedPnl = netPremium scenarioBWheel.executions -
      commissionCost scenarioBWheel.executions + stockGain scenarioBWheel.executions :=
  C3_realized_pnl_identity.1 scenarioBState
    (Reachable.step initState scenarioAB Reachable.init)
    scenarioBWheel (by decide) (by decide)

/-! ## Claim C4: an opening put sale with no open wheel creates a CSP wheel -/

theorem stepWheelList_eq_none (e : Execution) :
    ∀ ws : List Wheel,
      (∀ w ∈ ws, ¬(w.symbol = e.symbol ∧ w.endDate = none)) →
      stepWheelList e ws = none := by
  intro ws
  induction ws with
  | nil => intro _; rfl
  | cons w rest ih =>
      intro h
      have hc := h w (List.mem_cons_self w rest)
      simp only [stepWheelList, if_neg hc]
      rw [ih (fun v hv => h v (List.mem_cons_of_mem w hv))]

/-- C4: for every symbol with no open wheel (state `NONE`), a SELL
execution of a PUT creates a new wheel in phase `CSP` (appended to the
wheel set, reported as `startNewWheel`); and Scenario A concretely yields
one wheel with phase `CSP`, premiumCollected = $200.00 (20000 cents) and
isOpen = true. -/
theorem C4_sell_put_opens_csp_wheel :
    (∀ (ws : List Wheel) (e : Execution),
      (∀ w ∈ ws, ¬(w.symbol = e.symbol ∧ w.endDate = none)) →
      e.side = .SELL → e.kind = .PUT →
      processWheels ws e = (ws ++ [newWheel ws e], .startNewWheel) ∧
      (newWheel ws e).phase = .CSP ∧ (newWheel ws e).isOpen = true) ∧
    (ingestState initState [rawSellPutA]).wheels.map
      (fun w => (w.phase, w.premiumCollected, w.isOpen)) =
        [(.CSP, 20000, true)] := by
  refine ⟨?_, by decide⟩
  intro ws e hnone hside hkind
  have hsl := stepWheelList_eq_none e ws hnone
  refine ⟨?_, rfl, rfl⟩
  simp only [processWheels, hsl, if_pos (And.intro hside hkind)]

/-- Witness for C4 at the concrete Scenario-A execution and the empty
wheel set. -/
theorem C4_sell_put_opens_csp_wheel_witness :
    processWheels [] execSellPutA = ([] ++ [newWheel [] execSellPutA], .startNewWheel) ∧
    (newWheel [] execSellPutA).phase = .CSP ∧
    (newWheel [] execSellPutA).isOpen = true :=
  C4_sell_put_opens_csp_wheel.1 [] execSellPutA (by simp) (by decide) (by decide)

/-! ## Claim C2: deduplication makes ingestion idempotent -/

theorem mem_seenAfter_left (x : String) :
    ∀ (l : List Execution) (seen : List String), x ∈ seen → x ∈ seenAfter seen l := by
  intro l
  induction l with
  | nil => intro seen h; exact h
  | cons a rest ih =>
      intro seen h
      by_cases ha : a.execId ∈ seen
      · simpa [seenAfter, ha] using ih seen h
      · simpa [seenAfter, ha] using ih (a.execId :: seen) (List.mem_cons_of_mem _ h)

theorem mem_seenAfter_of_mem (e : Execution) :
    ∀ (l : List Execution) (seen : List String), e ∈ l → e.execId ∈ seenAfter seen l := by
  intro l
  induction l with
  | nil => intro seen h; simp at h
  | cons a rest ih =>
      intro seen h
      rcases List.mem_cons.mp h with h | h
      · subst h
        by_cases ha : e.execId ∈ seen
        · simpa [seenAfter, ha] using mem_seenAfter_left e.execId rest seen ha
        · simpa [seenAfter, ha] using
            mem_seenAfter_left e.execId rest (e.execId :: seen) (List.mem_cons_self _ _)
      · by_cases ha : a.execId ∈ seen
        · simpa [seenAfter, ha] using ih seen h
        · simpa [seenAfter, ha] using ih (a.execId :: seen) h

theorem seenAfter_of_all_seen :
    ∀ (l : List Execution) (seen : List String),
      (∀ e ∈ l, e.execId ∈ seen) → seenAfter seen l = seen := by
  intro l
  induction l with
  | nil => intro seen _; rfl
  | cons a rest ih =>
      intro seen h
      have ha := h a (List.mem_cons_self a rest)
      simp only [seenAfter, if_pos ha]
      exact ih seen (fun e he => h e (List.mem_cons_of_mem a he))

theorem dedupNew_of_all_seen :
    ∀ (l : List Execution) (seen : List String),
      (∀ e ∈ l, e.execId ∈ seen) → dedupNew seen l = [] := by
  intro l
  induction l with
  | nil => intro seen _; rfl
  | cons a rest ih =>
      intro seen h
      have ha := h a (List.mem_cons_self a rest)
      simp only [dedupNew, if_pos ha]
      exact ih seen (fun e he => h e (List.mem_cons_of_mem a he))

theorem dedupNew_append :
    ∀ (l₁ l₂ : List Execution) (seen : List String),
      dedupNew seen (l₁ ++ l₂) = dedupNew seen l₁ ++ dedupNew (seenAfter seen l₁) l₂ := by
  intro l₁
  induction l₁ with
  | nil => intro l₂ seen; rfl
  | cons a rest ih =>
      intro l₂ seen
      by_cases ha : a.execId ∈ seen
      · simp only [List.cons_append, dedupNew, seenAfter, if_pos ha]
        exact ih l₂ seen
      · simp only [List.cons_append, dedupNew, seenAfter, if_neg ha, List.append_eq]
        rw [ih l₂ (a.execId :: seen)]

theorem seenAfter_append :
    ∀ (l₁ l₂ : List Execution) (seen : List String),
      seenAfter seen (l₁ ++ l₂) = seenAfter (seenAfter seen l₁) l₂ := by
  intro l₁
  induction l₁ with
  | nil => intro l₂ seen; rfl
  | cons a rest ih =>
      intro l₂ seen
      by_cases ha : a.execId ∈ seen
      · simp only [List.cons_append, seenAfter, if_pos ha]
        exact ih l₂ seen
      · simp only [List.cons_append, seenAfter, if_neg ha]
        exact ih l₂ (a.execId :: seen)

/-- C2: ingestion is idempotent — re-ingesting a batch in a second sync
call yields exactly the state of the first call; ingesting the set twice
inside one call yields the same state as ingesting it once; and a single
execution whose broker execution id is already known is a no-op (not an
error): the state is returned unchanged. -/
theorem C2_ingestion_idempotent :
    (∀ (s : EngineState) (raws : List RawExecution),
      ingestState (ingestState s raws) raws = ingestState s raws) ∧
    (∀ (s : EngineState) (raws : List RawExecution),
      ingestState s (raws ++ raws) = ingestState s raws) ∧
    (∀ (s : EngineState) (r : RawExecution) (e : Execution),
      normalizeExecution r = some e → e.execId ∈ s.seenIds →
      ingestState s [r] = s) := by
  refine ⟨?_, ?_, ?_⟩
  · intro s raws
    have hall : ∀ e ∈ raws.filterMap normalizeExecution,
        e.execId ∈ seenAfter s.seenIds (raws.filterMap normalizeExecution) :=
      fun e he => mem_seenAfter_of_mem e _ s.seenIds he
    show ingestState
      { wheels := _, seenIds := seenAfter s.seenIds (raws.filterMap normalizeExecution) }
      raws = _
    unfold ingestState ingest
    simp only
    rw [dedupNew_of_all_seen _ _ hall, seenAfter_of_all_seen _ _ hall]
    rfl
  · intro s raws
    have hall : ∀ e ∈ raws.filterMap normalizeExecution,
        e.execId ∈ seenAfter s.seenIds (raws.filterMap normalizeExecution) :=
      fun e he => mem_seenAfter_of_mem e _ s.seenIds he
    unfold ingestState ingest
    simp only [List.filterMap_append]
    rw [dedupNew_append, seenAfter_append,
      dedupNew_of_all_seen _ _ hall, seenAfter_of_all_seen _ _ hall,
      List.append_nil]
  · intro s r e hn hid
    have hnl : [r].filterMap normalizeExecution = [e] := by
      simp [List.filterMap, hn]
    have hd : dedupNew s.seenIds [e] = [] := by
      simp [dedupNew, hid]
    have hs : seenAfter s.seenIds [e] = s.seenIds := by
      simp [seenAfter, hid]
    unfold ingestState ingest
    rw [hnl]
    show ({ wheels := (processBatch s.wheels (sortBatch (dedupNew s.seenIds [e]))).1,
            seenIds := seenAfter s.seenIds [e] } : EngineState) = s
    rw [hd, hs]
    rfl

/-- Witness for C2: re-ingesting the already-known Scenario-A execution
into the post-Scenario-A state is a no-op. -/
theorem C2_ingestion_idempotent_witness :
    ingestState (ingestState initState [rawSellPutA]) [rawSellPutA] =
      ingestState initState [rawSellPutA] :=
  C2_ingestion_idempotent.2.2 (ingestState initState [rawSellPutA])
    rawSellPutA execSellPutA (by decide) (by decide)

/-! ## Claim C7: the categorizer's label range and non-mutation -/

theorem suggestedLabel_mem (a : WheelAction) :
    suggestedLabel a ∈
      ["Start New Wheel", "Close Open Wheel", "Continue Wheel", "Needs Review"] := by
  cases a <;> simp [suggestedLabel]

theorem processBatch_trade_labels :
    ∀ (l : List Execution) (ws : List Wheel) (t : CategorizedTrade),
      t ∈ (processBatch ws l).2 →
      t.suggested_action ∈
        ["Start New Wheel", "Close Open Wheel", "Continue Wheel", "Needs Review"] := by
  intro l
  induction l with
  | nil => intro ws t ht; simp [processBatch] at ht
  | cons e rest ih =>
      intro ws t ht
      simp only [processBatch] at ht
      rcases List.mem_cons.mp ht with ht | ht
      · subst ht
        exact suggestedLabel_mem _
      · exact ih _ t ht

theorem stepWheelList_action (e : Execution) :
    ∀ (ws ws' : List Wheel) (a : WheelAction),
      stepWheelList e ws = some (ws', a) →
      a = .continueWheel ∨ a = .closeOpenWheel := by
  intro ws
  induction ws with
  | nil => intro ws' a h; simp [stepWheelList] at h
  | cons w rest ih =>
      intro ws' a h
      by_cases hc : w.symbol = e.symbol ∧ w.endDate = none
      · simp only [stepWheelList, if_pos hc] at h
        obtain ⟨_, h2⟩ := Prod.mk.injEq .. ▸ (Option.some.injEq .. ▸ h)
        rw [← h2]
        by_cases hcl : (stepWheel w e).endDate = none
        · exact Or.inl (by simp [hcl])
        · exact Or.inr (by simp [hcl])
      · simp only [stepWheelList, if_neg hc] at h
        rcases hrec : stepWheelList e rest with _ | p
        · rw [hrec] at h; exact absurd h (by simp)
        · rw [hrec] at h
          rcases p with ⟨ws₀, a₀⟩
          simp only [Option.some.injEq, Prod.mk.injEq] at h
          obtain ⟨_, h2⟩ := h
          exact h2 ▸ ih ws₀ a₀ hrec

theorem processWheels_needsReview (ws : List Wheel) (e : Execution) :
    (processWheels ws e).2 = .needsReview → (processWheels ws e).1 = ws := by
  unfold processWheels
  rcases hsl : stepWheelList e ws with _ | ⟨ws', a⟩
  · by_cases hps : e.side = .SELL ∧ e.kind = .PUT
    · rw [if_pos hps]
      intro h
      cases h
    · rw [if_neg hps]
      intro _
      rfl
  · intro h
    rcases stepWheelList_action e ws ws' a hsl with ha | ha <;>
      (subst ha; cases h)

/-- C7: every categorized-trade entry of a sync carries one of exactly
four suggested actions — `Start New Wheel`, `Close Open Wheel`,
`Continue Wheel`, `Needs Review` — and an execution categorized
`needsReview` (unassignable) leaves the wheel set unchanged. -/
theorem C7_categorizer_label_range :
    (∀ (s : EngineState) (raws : List RawExecution) (t : CategorizedTrade),
      t ∈ (ingest s raws).2.1 →
      t.suggested_action ∈
        ["Start New Wheel", "Close Open Wheel", "Continue Wheel", "Needs Review"]) ∧
    (∀ (ws : List Wheel) (e : Execution),
      (processWheels ws e).2 = .needsReview → (processWheels ws e).1 = ws) := by
  refine ⟨?_, processWheels_needsReview⟩
  intro s raws t ht
  exact processBatch_trade_labels _ s.wheels t ht

/-- Witness for C7 at Scenario D: the unassignable stock sale is reported
with a label in the range and the wheel set stays empty. -/
theorem C7_categorizer_label_range_witness :
    (mkTrade execStockSellD .needsReview).suggested_action ∈
      ["Start New Wheel", "Close Open Wheel", "Continue Wheel", "Needs Review"] ∧
    (processWheels [] execStockSellD).1 = [] :=
  ⟨C7_categorizer_label_range.1 initState [rawStockSellD]
      (mkTrade execStockSellD .needsReview) (by decide),
   C7_categorizer_label_range.2 [] execStockSellD (by decide)⟩

/-! ## Claim C5: fatal sync errors are atomic -/

theorem fetchWithRetry_none (attempts : List (Option (List RawExecution)))
    (h : attempts.all Option.isNone) : fetchWithRetry attempts = none := by
  induction attempts with
  | nil => rfl
  | cons a rest ih =>
      rcases List.all_cons .. ▸ h with h --
      rcases Bool.and_eq_true .. ▸ h with ⟨h1, h2⟩
      rcases a with _ | v
      · simpa [fetchWithRetry, List.findSome?] using ih h2
      · simp at h1

/-- C5: whenever a sync terminates fatally — a second sync requested while
one is in flight (`ConcurrentSyncRejected`) or upstream fetch retries
exhausted (`UpstreamFetchFailure`) — the account after the failed sync is
exactly the account before it: no partial application of the batch is ever
visible. -/
theorem C5_sync_failure_atomic :
    (∀ (a : Account) (attempts : List (Option (List RawExecution))) (err : SyncError),
      (requestSync a attempts).2 = .error err → (requestSync a attempts).1 = a) ∧
    (∀ (a : Account) (attempts : List (Option (List RawExecution))),
      a.syncInFlight = true →
      requestSync a attempts = (a, .error .ConcurrentSyncRejected)) ∧
    (∀ (a : Account) (attempts : List (Option (List RawExecution))),
      a.syncInFlight = false → attempts.all Option.isNone = true →
      requestSync a attempts = (a, .error .UpstreamFetchFailure)) := by
  refine ⟨?_, ?_, ?_⟩
  · intro a attempts err
    unfold requestSync
    by_cases hf : a.syncInFlight
    · rw [if_pos hf]
      intro _
      rfl
    · rw [if_neg hf]
      rcases hr : fetchWithRetry attempts with _ | raws
      · intro _
        rfl
      · intro h
        cases h
  · intro a attempts hf
    unfold requestSync
    rw [if_pos hf]
  · intro a attempts hf hn
    unfold requestSync
    rw [if_neg (by simp [hf]), fetchWithRetry_none attempts hn]

/-- Witness for C5: a concrete busy account rejects a second sync and is
left untouched. -/
theorem C5_sync_failure_atomic_witness :
    requestSync { engine := initState, syncInFlight := true } [some scenarioAB] =
      ({ engine := initState, syncInFlight := true }, .error .ConcurrentSyncRejected) ∧
    (requestSync { engine := initState, syncInFlight := true } [some scenarioAB]).1 =
      { engine := initState, syncInFlight := true } :=
  ⟨C5_sync_failure_atomic.2.1 _ _ rfl,
   C5_sync_failure_atomic.1 _ _ .ConcurrentSyncRejected rfl⟩

/-! ## Claim C10: the /api proxy is a noninterference boundary -/

/-- C10: the proxy issues the identical upstream request for any two
incoming requests agreeing on the URL path, whatever their method, headers
(including Authorization) and body; the upstream request is a bare GET of
`API_BASE ++ path` with no forwarded headers or body; and any upstream
failure maps to an HTTP 500 response carrying the error-message object. -/
theorem C10_proxy_noninterference :
    (∀ r₁ r₂ : HttpRequest, r₁.path = r₂.path →
      proxyUpstream r₁ = proxyUpstream r₂) ∧
    (∀ r : HttpRequest,
      (proxyUpstream r).method = "GET" ∧ (proxyUpstream r).headers = [] ∧
      (proxyUpstream r).body = none ∧ (proxyUpstream r).url = API_BASE ++ r.path) ∧
    (∀ msg : String,
      proxyRespond (.error msg) = { status := 500, body := .errorObj msg }) := by
  refine ⟨?_, ?_, ?_⟩
  · intro r₁ r₂ h
    simp [proxyUpstream, h]
  · intro r
    exact ⟨rfl, rfl, rfl, rfl⟩
  · intro msg
    rfl

/-- Witness for C10: an authenticated POST with a body and an anonymous
GET to the same path produce the identical upstream request. -/
theorem C10_proxy_noninterference_witness :
    proxyUpstream
      { path := "/wheel-summary", method := "POST",
        headers := [("Authorization", "Bearer token-a")], body := some "x" } =
    proxyUpstream
      { path := "/wheel-summary", method := "GET", headers := [], body := none } :=
  C10_proxy_noninterference.1 _ _ (by decide)

/-! ## Claim C6: tie-break makes same-timestamp close/open order irrelevant -/

theorem dedupNew_eq_self :
    ∀ (l : List Execution) (seen : List String),
      (∀ e ∈ l, e.execId ∉ seen) → (l.map (fun e => e.execId)).Nodup →
      dedupNew seen l = l := by
  intro l
  induction l with
  | nil => intro seen _ _; rfl
  | cons a rest ih =>
      intro seen hfresh hnodup
      have ha : a.execId ∉ seen := hfresh a (List.mem_cons_self a rest)
      have hhead : a.execId ∉ rest.map (fun e => e.execId) :=
        (List.nodup_cons.mp (by simpa using hnodup)).1
      simp only [dedupNew, if_neg ha]
      congr 1
      apply ih
      · intro e he hmem
        rcases List.mem_cons.mp hmem with hmem | hmem
        · exact hhead (hmem ▸ List.mem_map_of_mem (fun e => e.execId) he)
        · exact hfresh e (List.mem_cons_of_mem a he) hmem
      · exact (List.nodup_cons.mp (by simpa using hnodup)).2

theorem sortBatch_eq_of_perm (l₁ l₂ : List Execution)
    (hperm : l₁.Perm l₂) (hkeys : (l₁.map sortKey).Nodup) :
    sortBatch l₁ = sortBatch l₂ := by
  have hp : (sortBatch l₁).Perm (sortBatch l₂) :=
    ((List.perm_insertionSort execLe l₁).trans hperm).trans
      (List.perm_insertionSort execLe l₂).symm
  have hs₁ : (sortBatch l₁).Pairwise execLe := List.sorted_insertionSort execLe l₁
  have hs₂ : (sortBatch l₂).Pairwise execLe := List.sorted_insertionSort execLe l₂
  refine List.Perm.eq_of_sorted ?_ hs₁ hs₂ hp
  intro a b ha hb hab hba
  have ha1 : a ∈ l₁ := (List.perm_insertionSort execLe l₁).mem_iff.mp ha
  have hb1 : b ∈ l₁ :=
    hperm.mem_iff.mpr ((List.perm_insertionSort execLe l₂).mem_iff.mp hb)
  exact List.inj_on_of_nodup_map hkeys ha1 hb1 (Nat.le_antisymm hab hba)

/-- C6: for every two raw batches that are permutations of each other, in
which no two executions share both a timestamp and an opening/closing
class (so at a shared timestamp one is a close and the other an open —
the same-day-roll situation), and whose (fresh, duplicate-free) ids are
new to the state, ingestion yields the same wheel set — in particular the
same final wheel phases — because the engine sorts closes before opens at
equal timestamps. -/
theorem C6_same_timestamp_order_insensitive :
    ∀ (s : EngineState) (l₁ l₂ : List RawExecution),
      l₁.Perm l₂ →
      ((l₁.filterMap normalizeExecution).map sortKey).Nodup →
      ((l₁.filterMap normalizeExecution).map (fun e => e.execId)).Nodup →
      (∀ e ∈ l₁.filterMap normalizeExecution, e.execId ∉ s.seenIds) →
      (ingestState s l₁).wheels = (ingestState s l₂).wheels ∧
      (ingestState s l₁).wheels.map (fun w => w.phase) =
        (ingestState s l₂).wheels.map (fun w => w.phase) := by
  intro s l₁ l₂ hperm hkeys hids hfresh
  have hnp : (l₁.filterMap normalizeExecution).Perm (l₂.filterMap normalizeExecution) :=
    hperm.filterMap _
  have hids₂ : ((l₂.filterMap normalizeExecution).map (fun e => e.execId)).Nodup :=
    ((hnp.map _).nodup_iff).mp hids
  have hfresh₂ : ∀ e ∈ l₂.filterMap normalizeExecution, e.execId ∉ s.seenIds :=
    fun e he => hfresh e (hnp.mem_iff.mpr he)
  have hd₁ : dedupNew s.seenIds (l₁.filterMap normalizeExecution) =
      l₁.filterMap normalizeExecution :=
    dedupNew_eq_self _ _ hfresh hids
  have hd₂ : dedupNew s.seenIds (l₂.filterMap normalizeExecution) =
      l₂.filterMap normalizeExecution :=
    dedupNew_eq_self _ _ hfresh₂ hids₂
  have hsort : sortBatch (l₁.filterMap normalizeExecution) =
      sortBatch (l₂.filterMap normalizeExecution) :=
    sortBatch_eq_of_perm _ _ hnp hkeys
  have hw : (ingestState s l₁).wheels = (ingestState s l₂).wheels := by
    show (processBatch s.wheels
        (sortBatch (dedupNew s.seenIds (l₁.filterMap normalizeExecution)))).1 =
      (processBatch s.wheels
        (sortBatch (dedupNew s.seenIds (l₂.filterMap normalizeExecution)))).1
    rw [hd₁, hd₂, hsort]
  exact ⟨hw, by rw [hw]⟩

/-- Witness for C6: ingesting Scenario A plus a same-day roll (close of
the old put and open of a new one at the same timestamp) in either input
order yields the same wheel set. -/
theorem C6_same_timestamp_order_insensitive_witness :
    (ingestState initState [rawSellPutA, rawRollClose, rawRollOpen]).wheels =
      (ingestState initState [rawSellPutA, rawRollOpen, rawRollClose]).wheels :=
  (C6_same_timestamp_order_insensitive initState
    [rawSellPutA, rawRollClose, rawRollOpen]
    [rawSellPutA, rawRollOpen, rawRollClose]
    (by decide) (by decide) (by decide) (by decide)).1

/-! ## Claim C8: the shapes of exposed money fields -/

/-- C8 counterexample: the analytics overview exposes its money totals as
bare numerics — `AnalyticsPage` applies `fmt$` and sign comparisons to
them directly — so not every money field of every exposed query has the
`value`/`raw`/`class` object shape. -/
theorem C8_analytics_money_fields_not_objects :
    (analyticsMoneyFields (analyticsOverview scenarioBState)).all
        MoneyField.isObjShape = false ∧
    MoneyField.isObjShape
        (.num (analyticsOverview scenarioBState).total_realized_pnl) = false := by
  constructor
  · rfl
  · rfl

theorem sign_cases (v₁ v₂ : Int) (h : v₁.sign = v₂.sign) :
    (0 < v₁ ∧ 0 < v₂) ∨ (v₁ = 0 ∧ v₂ = 0) ∨ (v₁ < 0 ∧ v₂ < 0) := by
  rcases lt_trichotomy 0 v₁ with h1 | h1 | h1
  · refine Or.inl ⟨h1, ?_⟩
    have : v₂.sign = 1 := by rw [← h, Int.sign_eq_one_iff_pos]; exact h1
    exact Int.sign_eq_one_iff_pos.mp this
  · refine Or.inr (Or.inl ⟨h1.symm, ?_⟩)
    have hz : v₂.sign = 0 := by
      rw [← h, ← h1]
      rfl
    exact Int.sign_eq_zero_iff_zero.mp hz
  · refine Or.inr (Or.inr ⟨h1, ?_⟩)
    have : v₂.sign = -1 := by rw [← h, Int.sign_eq_neg_one_iff_neg]; exact h1
    exact Int.sign_eq_neg_one_iff_neg.mp this

/-- C8 (amended): money fields of the wheel-summary and history responses
are `value`/`raw`/`class` objects whose class is derived purely from the
sign of the raw value (the sync response's categorized trades carry no
money fields at all); the UI sign hints (`pnlTileClass`) likewise depend
only on the sign; but the analytics query exposes its money fields as
bare numerics, not objects. -/
theorem C8_money_field_shapes :
    (∀ w : Wheel,
      (summaryMoneyFields (summaryRow w)).all MoneyField.isObjShape = true) ∧
    (∀ w : Wheel,
      (summaryRow w).comm.cls = signClass (summaryRow w).comm.raw ∧
      (summaryRow w).premiumCollected.cls =
        signClass (summaryRow w).premiumCollected.raw ∧
      (summaryRow w).pnl.cls = signClass (summaryRow w).pnl.raw) ∧
    (∀ s : EngineState, ∀ r ∈ history s,
      (historyMoneyFields r).all MoneyField.isObjShape = true ∧
      r.comm.cls = signClass r.comm.raw) ∧
    (∀ v₁ v₂ : Int, v₁.sign = v₂.sign →
      signClass v₁ = signClass v₂ ∧ pnlTileClass v₁ = pnlTileClass v₂) ∧
    (∀ o : AnalyticsOverview,
      (analyticsMoneyFields o).all (fun f => !f.isObjShape) = true) := by
  refine ⟨fun w => rfl, fun w => ⟨rfl, rfl, rfl⟩, ?_, ?_, fun o => rfl⟩
  · intro s r hr
    unfold history at hr
    rcases List.mem_map.mp hr with ⟨e, _, rfl⟩
    exact ⟨rfl, rfl⟩
  · intro v₁ v₂ h
    rcases sign_cases v₁ v₂ h with ⟨h1, h2⟩ | ⟨h1, h2⟩ | ⟨h1, h2⟩
    · constructor
      · unfold signClass
        rw [if_pos h1, if_pos h2]
      · unfold pnlTileClass
        rw [if_pos (Int.le_of_lt h1), if_pos (Int.le_of_lt h2)]
    · subst h1
      subst h2
      exact ⟨rfl, rfl⟩
    · constructor
      · unfold signClass
        rw [if_neg (show ¬(0 < v₁) by omega), if_pos h1,
          if_neg (show ¬(0 < v₂) by omega), if_pos h2]
      · unfold pnlTileClass
        rw [if_neg (show ¬(0 ≤ v₁) by omega), if_neg (show ¬(0 ≤ v₂) by omega)]

/-- Witness for C8: the sign-hint conjunct at two concrete positive
amounts, and the history conjunct at the concrete Scenario-A execution's
row inside the Scenario-A/B history response. -/
theorem C8_money_field_shapes_witness :
    (signClass 500 = signClass 3 ∧ pnlTileClass 500 = pnlTileClass 3) ∧
    ((historyMoneyFields (historyRow execSellPutA)).all MoneyField.isObjShape = true ∧
      (historyRow execSellPutA).comm.cls =
        signClass (historyRow execSellPutA).comm.raw) :=
  ⟨C8_money_field_shapes.2.2.2.1 500 3 (by decide),
   C8_money_field_shapes.2.2.1 scenarioBState (historyRow execSellPutA) (by decide)⟩

/-! ## Claim C9: wheel numbers in the summary response -/

/-- C9 counterexample: after opening one wheel each for two different
symbols, both summary rows carry wheelNum 1 — the wheelNum values of a
wheel-summary response are not globally pairwise distinct, so
`String(row.wheelNum)` does not identify a row uniquely across symbols. -/
theorem C9_wheelNum_collision_across_symbols :
    ¬ (((wheelSummary (ingestState initState [rawSellPutA, rawSellPutM])).map
        (fun r => r.wheelNum)).Nodup) ∧
    ((wheelSummary (ingestState initState [rawSellPutA, rawSellPutM])).map
        (fun r => r.wheelNum)) = [1, 1] := by
  constructor
  · decide
  · rfl

theorem summary_filter_map (sym : String) :
    ∀ ws : List Wheel,
      (((ws.map summaryRow).filter (fun r => r.symbol == sym)).map
        (fun r => r.wheelNum)) = symSeqs sym ws := by
  intro ws
  induction ws with
  | nil => rfl
  | cons w rest ih =>
      simp only [List.map_cons, List.filter_cons, symSeqs_cons]
      by_cases hc : (w.symbol == sym)
      · have hc2 : ((summaryRow w).symbol == sym) = true := hc
        rw [if_pos hc2, if_pos hc, List.map_cons, ih]
        rfl
      · have hc2 : ((summaryRow w).symbol == sym) = false := by
          simpa using hc
        rw [if_neg (by simp [hc2]), if_neg (by simpa using hc), ih]

/-- C9 (amended): in every reachable state the wheelNum values of the
wheel-summary response are pairwise distinct among the rows of any single
symbol (they are strictly increasing per symbol); distinct symbols may
reuse the same wheelNum. -/
theorem C9_wheelNum_unique_per_symbol :
    ∀ s : EngineState, Reachable s → ∀ sym : String,
      (((wheelSummary s).filter (fun r => r.symbol == sym)).map
        (fun r => r.wheelNum)).Nodup := by
  intro s hs sym
  have hinv := (reachable_invariant s hs sym).1
  have heq := summary_filter_map sym s.wheels
  unfold wheelSummary
  rw [heq]
  exact hinv.imp (fun hx => Nat.ne_of_lt hx)

/-- Witness for C9 at the scenario A and B state and symbol AAPL. -/
theorem C9_wheelNum_unique_per_symbol_witness :
    (((wheelSummary scenarioBState).filter (fun r => r.symbol == "AAPL")).map
      (fun r => r.wheelNum)).Nodup :=
  C9_wheelNum_unique_per_symbol scenarioBState
    (Reachable.step initState scenarioAB Reachable.init) "AAPL"

end WheelTracker
